import Mathlib

/-!
# Point-in-polygon engine: a shallow embedding

This file embeds the point-in-polygon (PIP) engine of `src/src/lib.rs`
(the Rust `Engine` pyclass with methods `new`, `pip_1`, `pip_n`,
`pip_n_threaded`) and proves the specified properties about it.

Modelling conventions:
* 64-bit floats are modelled by `F64`: a rational number (standing in for a
  finite double; overflow of finite arithmetic to infinity is not modelled),
  or one of the IEEE non-finite values `nan`, `inf` (+∞), `ninf` (−∞).
  Comparisons and arithmetic follow IEEE-754 semantics on these values
  (any comparison with NaN is false, NaN propagates through arithmetic);
  the two signed zeros are collapsed into one.
* Rust panics and the spec's error taxonomy are modelled with `Except`:
  a panic in `Engine::new` is `GeometryError`, a panic on mismatched
  coordinate array lengths is `LengthMismatchError`.
* The GeoJSON decoding chain (`str::parse::<GeoJson>` + `quick_collection`,
  both external crates) is abstracted: a `Payload` is the decode outcome of
  one input string — either `malformed` (parse or collection error) or the
  decoded list of geometries of its `GeometryCollection`.
* The containment primitive `geo::Contains` is an external crate as well;
  following the spec (§4.1–§4.2, §9) it is modelled by the explicitly
  specified even-odd (crossing-number) rule for polygons.
-/

/-- An IEEE-754 double, modelled as a rational (finite case, with the two
zeros identified and no overflow to infinity) or a non-finite value. -/
inductive F64 where
  | fin (q : ℚ)
  | nan
  | inf
  | ninf
deriving DecidableEq, Repr

namespace F64

/-- IEEE `<`: any comparison involving NaN is false; −∞ is below every
finite value and +∞, +∞ is above every finite value and −∞. -/
def flt : F64 → F64 → Bool
  | fin a, fin b => a < b
  | fin _, inf => true
  | ninf, fin _ => true
  | ninf, inf => true
  | _, _ => false

/-- IEEE addition on the model: NaN propagates, ∞ + (−∞) is NaN. -/
def add : F64 → F64 → F64
  | nan, _ => nan
  | _, nan => nan
  | inf, ninf => nan
  | inf, _ => inf
  | ninf, inf => nan
  | ninf, _ => ninf
  | fin _, inf => inf
  | fin _, ninf => ninf
  | fin a, fin b => fin (a + b)

/-- IEEE subtraction on the model: NaN propagates, ∞ − ∞ is NaN. -/
def sub : F64 → F64 → F64
  | nan, _ => nan
  | _, nan => nan
  | inf, inf => nan
  | inf, _ => inf
  | ninf, ninf => nan
  | ninf, _ => ninf
  | fin _, inf => ninf
  | fin _, ninf => inf
  | fin a, fin b => fin (a - b)

/-- IEEE multiplication on the model: NaN propagates, ∞ · 0 is NaN,
signs of infinities follow the sign rule. -/
def mul : F64 → F64 → F64
  | nan, _ => nan
  | _, nan => nan
  | inf, inf => inf
  | inf, ninf => ninf
  | ninf, inf => ninf
  | ninf, ninf => inf
  | inf, fin b => if b = 0 then nan else if 0 < b then inf else ninf
  | fin a, inf => if a = 0 then nan else if 0 < a then inf else ninf
  | ninf, fin b => if b = 0 then nan else if 0 < b then ninf else inf
  | fin a, ninf => if a = 0 then nan else if 0 < a then ninf else inf
  | fin a, fin b => fin (a * b)

/-- IEEE division on the model: NaN propagates, ∞ / ∞ is NaN, x / ±∞ is 0,
finite / 0 is ±∞ (0 / 0 is NaN); the single model zero counts as +0. -/
def div : F64 → F64 → F64
  | nan, _ => nan
  | _, nan => nan
  | inf, inf => nan
  | inf, ninf => nan
  | ninf, inf => nan
  | ninf, ninf => nan
  | inf, fin b => if 0 ≤ b then inf else ninf
  | ninf, fin b => if 0 ≤ b then ninf else inf
  | fin _, inf => fin 0
  | fin _, ninf => fin 0
  | fin a, fin b =>
      if b = 0 then (if a = 0 then nan else if 0 < a then inf else ninf)
      else fin (a / b)

/-- Whether the value is finite. -/
def isFinite : F64 → Bool
  | fin _ => true
  | _ => false

end F64

/-- A coordinate, mirroring `geo_types::Coordinate { x, y }`: `x` is the
longitude and `y` the latitude (`Point(Coordinate { y: lat, x: lon })`). -/
structure F64Point where
  x : F64
  y : F64
deriving DecidableEq, Repr

/-- Modelled from the spec (§4.1), standing in for the external `geo` crate's
containment primitive: one edge of the even-odd test. The edge (vi, vj) is
crossed by the horizontal ray from point `p` toward increasing longitude iff
the endpoint latitudes straddle the point's latitude (one strictly above, the
other below or equal) and the ray-edge intersection longitude is strictly
greater than the point's longitude. -/
def edgeCrosses (p vi vj : F64Point) : Bool :=
  (F64.flt p.y vi.y != F64.flt p.y vj.y) &&
    F64.flt p.x
      (F64.add
        (F64.div (F64.mul (F64.sub vj.x vi.x) (F64.sub p.y vi.y))
          (F64.sub vj.y vi.y))
        vi.x)

/-- The consecutive vertex pairs of a ring starting at some vertex list,
closing back to `first` after the last vertex. -/
def edgesFrom (first : F64Point) : List F64Point → List (F64Point × F64Point)
  | [] => []
  | [a] => [(a, first)]
  | a :: b :: rest => (a, b) :: edgesFrom first (b :: rest)

/-- Modelled from the spec (§3, §4.1): the edges (v_i, v_{i+1 mod n}) of a
ring, the sequence treated as a closed loop by wrapping the last edge back to
the first vertex. -/
def ringEdges : List F64Point → List (F64Point × F64Point)
  | [] => []
  | v :: vs => edgesFrom v (v :: vs)

/-- Modelled from the spec (§4.1): the crossing number of the horizontal ray
from `p`, over all edges of the ring including the closing edge. -/
def crossingNumber (ring : List F64Point) (p : F64Point) : ℕ :=
  (ringEdges ring).countP (fun e => edgeCrosses p e.1 e.2)

/-- Modelled from the spec (§4.1): even-odd rule, the point is inside the
ring iff the crossing number is odd. -/
def ring_contains (ring : List F64Point) (p : F64Point) : Bool :=
  crossingNumber ring p % 2 = 1

/-- A polygon: one exterior ring plus zero or more interior (hole) rings,
mirroring `geo_types::Polygon`. -/
structure Polygon where
  exterior : List F64Point
  interiors : List (List F64Point)
deriving DecidableEq, Repr

/-- Modelled from the spec (§4.2), standing in for the external `geo` crate's
`Contains`: the point is in the polygon iff it is inside the exterior ring
and inside none of the interior rings. -/
def polygon_contains (poly : Polygon) (p : F64Point) : Bool :=
  ring_contains poly.exterior p &&
    poly.interiors.all (fun hole => ! ring_contains hole p)

/-- A decoded geometry, mirroring the `geo_types::Geometry` enum restricted
to the variants the development needs: polygons, and line strings as the
representative non-polygon geometry. -/
inductive Geometry where
  | polygon (poly : Polygon)
  | line (coords : List F64Point)
deriving DecidableEq, Repr

/-- Containment test dispatched over the geometry, as `Geometry::contains`
does in the `geo` crate. Modelled from the spec for polygons (§4.1–§4.2);
the spec gives containment semantics only for polygons (non-polygon
geometries are outside its data model), so a non-polygon geometry contains
no point. No theorem below depends on the `line` branch. -/
def Geometry.containsPt : Geometry → F64Point → Bool
  | .polygon poly, p => polygon_contains poly p
  | .line _, _ => false

/-- Whether every vertex of the geometry's rings is finite (the spec's §3
Coordinate invariant for loaded polygons). -/
def Geometry.allFiniteVerts : Geometry → Bool
  | .polygon poly =>
      poly.exterior.all (fun v => v.x.isFinite && v.y.isFinite) &&
        poly.interiors.all (fun r => r.all (fun v => v.x.isFinite && v.y.isFinite))
  | .line coords => coords.all (fun v => v.x.isFinite && v.y.isFinite)

/-- The error taxonomy (spec §7): construction-time `GeometryError` (a panic
in `Engine::new`) and query-time `LengthMismatchError` (the panic "Input
arrays different lengths"). -/
inductive EngineError where
  | geometryError (msg : String)
  | lengthMismatchError
deriving DecidableEq, Repr

/-- `i32::MAX` as a natural number, the polygon-count cap in `Engine::new`. -/
def i32MaxN : ℕ := 2 ^ 31 - 1

/-- Conversion of a nonnegative index to `i32` (the Rust `index as i32`
wrapping cast), as an integer. -/
def i32ofNat (n : ℕ) : ℤ := ((n : ℤ) + 2 ^ 31) % 2 ^ 32 - 2 ^ 31

/-- The decode outcome of one input GeoJSON string: the parse /
`quick_collection` chain is an external collaborator (spec §1), so a payload
is modelled by its result — `malformed` when either step fails, or the list
of geometries of the resulting `GeometryCollection`. -/
inductive Payload where
  | malformed
  | decoded (gs : List Geometry)
deriving DecidableEq, Repr

/-- One iteration of the `Engine::new` loop: a malformed payload panics
("Could not decode geojson" / "Could not create GeometryCollection"); a
collection whose length is not exactly 1 panics ("Multiple polygons found in
one geojson string, not supported"); otherwise the single geometry is kept. -/
def decodeOne : Payload → Except EngineError Geometry
  | .malformed => .error (.geometryError "Could not decode geojson")
  | .decoded gs =>
      match gs with
      | [g] => .ok g
      | _ =>
          .error (.geometryError
            "Multiple polygons found in one geojson string, not supported")

/-- The `Engine::new` loop over all payloads: fail-fast left to right, the
successfully decoded geometries kept in input order. -/
def decodeAll : List Payload → Except EngineError (List Geometry)
  | [] => .ok []
  | p :: ps =>
      match decodeOne p with
      | .error err => .error err
      | .ok g =>
          match decodeAll ps with
          | .error err => .error err
          | .ok gs => .ok (g :: gs)

/-- The polygon registry: `struct Engine { polygons: Vec<Geometry<f64>> }`. -/
structure Engine where
  polygons : List Geometry
deriving DecidableEq, Repr

namespace Engine

/-- `Engine::new`: rejects more than `i32::MAX` payloads ("Too many input
polygons"), then decodes each payload in order, failing on the first bad
one. -/
def new (geometry : List Payload) : Except EngineError Engine :=
  if geometry.length > i32MaxN then .error (.geometryError "Too many input polygons")
  else (decodeAll geometry).map Engine.mk

/-- The registry invariant established by `Engine::new`: at most `i32::MAX`
polygons, so every index fits in an `i32`. -/
def WF (e : Engine) : Prop := e.polygons.length ≤ i32MaxN

instance (e : Engine) : Decidable e.WF := by unfold WF; infer_instance

end Engine

/-- Rust's `Iterator::position`: index of the first element satisfying the
predicate. -/
def position {α : Type} (pred : α → Bool) : List α → Option ℕ
  | [] => none
  | a :: l => if pred a then some 0 else (position pred l).map (· + 1)

namespace Engine

/-- `Engine::pip_1`: build the point with `y = lat`, `x = lon`, scan the
polygons stopping at the first hit, return the hit index as `i32`, or −1. -/
def pip_1 (e : Engine) (lat lon : F64) : ℤ :=
  let point : F64Point := ⟨lon, lat⟩
  match position (fun polygon => polygon.containsPt point) e.polygons with
  | some index => i32ofNat index
  | none => -1

/-- `Engine::pip_n`: panics ("Input arrays different lengths") on mismatched
lengths, otherwise applies `pip_1` to each coordinate pair in input order. -/
def pip_n (e : Engine) (lat_array lon_array : List F64) :
    Except EngineError (List ℤ) :=
  if lat_array.length ≠ lon_array.length then .error .lengthMismatchError
  else .ok (List.zipWith (fun lat lon => e.pip_1 lat lon) lat_array lon_array)

/-- The indexed input `(n, lat[n], lon[n])` built by `pip_n_threaded`. -/
def parInput (lat_array lon_array : List F64) : List (ℕ × F64 × F64) :=
  (List.zip lat_array lon_array).enum.map (fun q => (q.1, q.2.1, q.2.2))

/-- The parallel map of `pip_n_threaded`: each indexed point is paired with
its `pip_1` result, and pairs with no match (result < 0) are filtered out. -/
def parResults (e : Engine) (lat_array lon_array : List F64) : List (ℕ × ℤ) :=
  ((parInput lat_array lon_array).map (fun q => (q.1, e.pip_1 q.2.1 q.2.2))).filter
    (fun r => decide (0 ≤ r.2))

/-- The reassembly step of `pip_n_threaded`: a result vector of length `len`
pre-filled with −1, each collected `(index, result)` pair written at its
index. -/
def scatterResults (len : ℕ) (shuffled : List (ℕ × ℤ)) : List ℤ :=
  shuffled.foldl (fun results q => results.set q.1 q.2) (List.replicate len (-1))

/-- `Engine::pip_n_threaded`: the length check, then the indexed parallel
map, filter and reassembly. The list `parResults` is in input order here;
completion-order independence is stated over its permutations. -/
def pip_n_threaded (e : Engine) (lat_array lon_array : List F64) :
    Except EngineError (List ℤ) :=
  if lat_array.length ≠ lon_array.length then .error .lengthMismatchError
  else .ok (scatterResults lat_array.length (e.parResults lat_array lon_array))

end Engine

/-! ## Concrete fixtures (the spec's §8 example geometry) -/

/-- The spec's example polygon: a square with vertices (0,0), (0,10),
(10,10), (10,0) and one triangular hole inside it. -/
def specSquare : Polygon :=
  ⟨[⟨.fin 0, .fin 0⟩, ⟨.fin 0, .fin 10⟩, ⟨.fin 10, .fin 10⟩, ⟨.fin 10, .fin 0⟩],
    [[⟨.fin 4, .fin 4⟩, ⟨.fin 4, .fin 7⟩, ⟨.fin 7, .fin 4⟩]]⟩

/-- A registry holding only the spec's example polygon. -/
def specEngine : Engine := ⟨[.polygon specSquare]⟩

/-! ## Basic facts about `position` and the `i32` cast -/

theorem position_eq_none_iff {α : Type} (pred : α → Bool) (l : List α) :
    position pred l = none ↔ ∀ a ∈ l, pred a = false := by
  induction l with
  | nil => simp [position]
  | cons a l ih =>
    by_cases h : pred a
    · simp [position, h]
    · simp [position, h, ih]

theorem position_spec {α : Type} (pred : α → Bool) (l : List α) (i : ℕ)
    (h : position pred l = some i) :
    ∃ hi : i < l.length, pred (l.get ⟨i, hi⟩) = true ∧
      ∀ j (hj : j < l.length), j < i → pred (l.get ⟨j, hj⟩) = false := by
  induction l generalizing i with
  | nil => simp [position] at h
  | cons a l ih =>
    by_cases ha : pred a
    · simp [position, ha] at h
      subst h
      exact ⟨Nat.succ_pos _, by simpa using ha, by omega⟩
    · simp [position, ha] at h
      obtain ⟨i', hi', rfl⟩ := h
      obtain ⟨h1, h2, h3⟩ := ih i' hi'
      refine ⟨by simpa using Nat.succ_lt_succ h1, by simpa using h2, ?_⟩
      intro j hj hlt
      match j, hj with
      | 0, _ => simpa using ha
      | j + 1, hj => exact h3 j (by simpa using hj) (by omega)

theorem i32ofNat_of_le (n : ℕ) (h : n ≤ i32MaxN) : i32ofNat n = n := by
  unfold i32ofNat
  unfold i32MaxN at h
  omega

/-! ## The single-point query -/

theorem pip_1_eq_position (e : Engine) (lat lon : F64) :
    e.pip_1 lat lon =
      match position (fun polygon => polygon.containsPt ⟨lon, lat⟩) e.polygons with
      | some index => i32ofNat index
      | none => -1 := rfl

/-- C2: `pip_1` scans the polygons in registration order `0..N−1` and returns
the smallest index whose polygon contains the point, or −1 when no polygon
contains it; in particular, when two polygons at indices `i < j` both contain
the point, the result is `i`. -/
theorem pip_1_first_match (e : Engine) (hWF : e.WF) (lat lon : F64) :
    (e.pip_1 lat lon = -1 ∧
        ∀ g ∈ e.polygons, g.containsPt ⟨lon, lat⟩ = false) ∨
      ∃ i : ℕ, ∃ hi : i < e.polygons.length,
        e.pip_1 lat lon = (i : ℤ) ∧
          (e.polygons.get ⟨i, hi⟩).containsPt ⟨lon, lat⟩ = true ∧
          ∀ j (hj : j < e.polygons.length), j < i →
            (e.polygons.get ⟨j, hj⟩).containsPt ⟨lon, lat⟩ = false := by
  cases hp : position (fun polygon => polygon.containsPt ⟨lon, lat⟩) e.polygons with
  | none =>
    left
    rw [pip_1_eq_position, hp]
    exact ⟨rfl, (position_eq_none_iff _ _).mp hp⟩
  | some i =>
    right
    obtain ⟨hi, hpi, hlt⟩ := position_spec _ _ _ hp
    refine ⟨i, hi, ?_, hpi, hlt⟩
    rw [pip_1_eq_position, hp]
    exact i32ofNat_of_le i (by unfold Engine.WF at hWF; omega)

/-- C2 witness: the theorem applied to the one-polygon example registry and
the point (1, 1). -/
theorem pip_1_first_match_witness :
    specEngine.WF ∧
      ((specEngine.pip_1 (.fin 1) (.fin 1) = -1 ∧
          ∀ g ∈ specEngine.polygons, g.containsPt ⟨.fin 1, .fin 1⟩ = false) ∨
        ∃ i : ℕ, ∃ hi : i < specEngine.polygons.length,
          specEngine.pip_1 (.fin 1) (.fin 1) = (i : ℤ) ∧
            ((specEngine.polygons.get ⟨i, hi⟩).containsPt ⟨.fin 1, .fin 1⟩ = true ∧
            ∀ j (hj : j < specEngine.polygons.length), j < i →
              (specEngine.polygons.get ⟨j, hj⟩).containsPt ⟨.fin 1, .fin 1⟩ = false)) :=
  ⟨by decide, by
    have h := pip_1_first_match specEngine (by decide) (.fin 1) (.fin 1)
    
    rcases h with ⟨h1, h2⟩ | ⟨i, hi, h1, h2, h3⟩
    · exact Or.inl ⟨h1, h2⟩
    · exact Or.inr ⟨i, hi, h1, h2, h3⟩⟩

/-- C6: `pip_1` never returns an index ≥ the registry length; a match is a
nonnegative index below the registry length and the only other result is the
reserved negative sentinel −1. -/
theorem pip_1_index_bound (e : Engine) (hWF : e.WF) (lat lon : F64) :
    e.pip_1 lat lon = -1 ∨
      (0 ≤ e.pip_1 lat lon ∧ e.pip_1 lat lon < (e.polygons.length : ℤ)) := by
  cases hp : position (fun polygon => polygon.containsPt ⟨lon, lat⟩) e.polygons with
  | none =>
    left
    rw [pip_1_eq_position, hp]
  | some i =>
    right
    obtain ⟨hi, -⟩ := position_spec _ _ _ hp
    have key : e.pip_1 lat lon = i32ofNat i := by rw [pip_1_eq_position, hp]
    rw [key, i32ofNat_of_le i (by unfold Engine.WF at hWF; omega)]
    exact ⟨Int.ofNat_nonneg i, by exact_mod_cast hi⟩

/-- C6 witness: the theorem applied to the example registry at point (1, 1). -/
theorem pip_1_index_bound_witness :
    specEngine.WF ∧
      (specEngine.pip_1 (.fin 1) (.fin 1) = -1 ∨
        (0 ≤ specEngine.pip_1 (.fin 1) (.fin 1) ∧
          specEngine.pip_1 (.fin 1) (.fin 1) < (specEngine.polygons.length : ℤ))) :=
  ⟨by decide, pip_1_index_bound specEngine (by decide) (.fin 1) (.fin 1)⟩

/-! ## Batch queries: length validation and the empty batch -/

/-- C5: with latitude and longitude arrays of different lengths, both the
sequential and the threaded batch query fail with `LengthMismatchError`, and
no partial result is produced (the error carries no results). -/
theorem batch_length_mismatch (e : Engine) (lat_array lon_array : List F64)
    (h : lat_array.length ≠ lon_array.length) :
    e.pip_n lat_array lon_array = .error .lengthMismatchError ∧
      e.pip_n_threaded lat_array lon_array = .error .lengthMismatchError := by
  unfold Engine.pip_n Engine.pip_n_threaded
  simp [h]

/-- C5 witness: the theorem applied to a one-point latitude array and an
empty longitude array. -/
theorem batch_length_mismatch_witness :
    [F64.fin 0].length ≠ ([] : List F64).length ∧
      (specEngine.pip_n [F64.fin 0] [] = .error .lengthMismatchError ∧
        specEngine.pip_n_threaded [F64.fin 0] [] = .error .lengthMismatchError) :=
  ⟨by decide, batch_length_mismatch specEngine [F64.fin 0] [] (by decide)⟩

/-- C10: batch queries on two empty coordinate arrays succeed with an empty
result sequence, for both the sequential and the threaded path. -/
theorem batch_empty (e : Engine) :
    e.pip_n [] [] = .ok [] ∧ e.pip_n_threaded [] [] = .ok [] :=
  ⟨rfl, rfl⟩

/-! ## Registry construction -/

theorem decodeAll_cons_error (p : Payload) (ps : List Payload) (err : EngineError)
    (hd : decodeOne p = .error err) : decodeAll (p :: ps) = .error err := by
  unfold decodeAll
  rw [hd]

theorem decodeAll_cons_ok_error (p : Payload) (ps : List Payload) (g : Geometry)
    (err : EngineError) (hd : decodeOne p = .ok g)
    (hda : decodeAll ps = .error err) : decodeAll (p :: ps) = .error err := by
  unfold decodeAll
  rw [hd, hda]

theorem decodeAll_cons_ok_ok (p : Payload) (ps : List Payload) (g : Geometry)
    (gs : List Geometry) (hd : decodeOne p = .ok g)
    (hda : decodeAll ps = .ok gs) : decodeAll (p :: ps) = .ok (g :: gs) := by
  unfold decodeAll
  rw [hd, hda]

theorem decodeOne_error_shape (p : Payload) (err : EngineError)
    (h : decodeOne p = .error err) : ∃ m, err = .geometryError m := by
  cases p with
  | malformed =>
    have hm : decodeOne .malformed =
        .error (.geometryError "Could not decode geojson") := rfl
    rw [hm] at h
    cases h
    exact ⟨_, rfl⟩
  | decoded gs =>
    match gs with
    | [g] =>
      have hm : decodeOne (.decoded [g]) = .ok g := rfl
      rw [hm] at h
      simp at h
    | [] =>
      have hm : decodeOne (.decoded []) = .error (.geometryError
          "Multiple polygons found in one geojson string, not supported") := rfl
      rw [hm] at h
      cases h
      exact ⟨_, rfl⟩
    | g1 :: g2 :: rest =>
      have hm : decodeOne (.decoded (g1 :: g2 :: rest)) = .error (.geometryError
          "Multiple polygons found in one geojson string, not supported") := rfl
      rw [hm] at h
      cases h
      exact ⟨_, rfl⟩

theorem decodeAll_ok_iff (ps : List Payload) :
    (∃ gs, decodeAll ps = .ok gs) ↔ ∀ p ∈ ps, ∃ g, decodeOne p = .ok g := by
  induction ps with
  | nil => simp [decodeAll]
  | cons p ps ih =>
    constructor
    · rintro ⟨gs, hgs⟩
      cases hd : decodeOne p with
      | error err => rw [decodeAll_cons_error p ps err hd] at hgs; cases hgs
      | ok g =>
        cases hda : decodeAll ps with
        | error err => rw [decodeAll_cons_ok_error p ps g err hd hda] at hgs; cases hgs
        | ok gs' =>
          intro q hq
          rcases List.mem_cons.mp hq with rfl | hq
          · exact ⟨g, hd⟩
          · exact ih.mp ⟨gs', hda⟩ q hq
    · intro h
      obtain ⟨g, hg⟩ := h p (List.mem_cons_self p ps)
      obtain ⟨gs, hgs⟩ := ih.mpr (fun q hq => h q (List.mem_cons_of_mem p hq))
      exact ⟨g :: gs, decodeAll_cons_ok_ok p ps g gs hg hgs⟩

theorem decodeAll_error_shape (ps : List Payload) (err : EngineError)
    (h : decodeAll ps = .error err) : ∃ m, err = .geometryError m := by
  induction ps with
  | nil =>
    have : decodeAll ([] : List Payload) = .ok [] := rfl
    rw [this] at h
    cases h
  | cons p ps ih =>
    cases hd : decodeOne p with
    | error e' =>
      rw [decodeAll_cons_error p ps e' hd] at h
      cases h
      exact decodeOne_error_shape p _ hd
    | ok g =>
      cases hda : decodeAll ps with
      | error e' =>
        rw [decodeAll_cons_ok_error p ps g e' hd hda] at h
        cases h
        exact ih hda
      | ok gs =>
        rw [decodeAll_cons_ok_ok p ps g gs hd hda] at h
        cases h

theorem decodeAll_ok_spec (ps : List Payload) (gs : List Geometry)
    (h : decodeAll ps = .ok gs) :
    gs.length = ps.length ∧
      ∀ i (h1 : i < ps.length) (h2 : i < gs.length),
        decodeOne (ps.get ⟨i, h1⟩) = .ok (gs.get ⟨i, h2⟩) := by
  induction ps generalizing gs with
  | nil =>
    have he : decodeAll ([] : List Payload) = .ok [] := rfl
    rw [he] at h
    cases h
    simp
  | cons p ps ih =>
    cases hd : decodeOne p with
    | error e' => rw [decodeAll_cons_error p ps e' hd] at h; cases h
    | ok g =>
      cases hda : decodeAll ps with
      | error e' => rw [decodeAll_cons_ok_error p ps g e' hd hda] at h; cases h
      | ok gs' =>
        rw [decodeAll_cons_ok_ok p ps g gs' hd hda] at h
        cases h
        obtain ⟨hlen, hget⟩ := ih gs' hda
        refine ⟨by simpa using hlen, ?_⟩
        intro i h1 h2
        match i with
        | 0 => simpa using hd
        | i + 1 => exact hget i (by simpa using h1) (by simpa using h2)

theorem engine_new_of_too_many (payloads : List Payload)
    (h : payloads.length > i32MaxN) :
    Engine.new payloads = .error (.geometryError "Too many input polygons") := by
  unfold Engine.new
  rw [if_pos h]

theorem engine_new_of_count_le (payloads : List Payload)
    (h : ¬payloads.length > i32MaxN) :
    Engine.new payloads = (decodeAll payloads).map Engine.mk := by
  unfold Engine.new
  rw [if_neg h]

/-- C4: `Engine.new` fails with a `GeometryError` exactly when some payload
cannot be decoded to a single geometry (undecodable, zero or several
geometries) or the payload count exceeds `i32::MAX` (the 31-bit signed
range); on success the registry length equals the input length and entry `i`
is the geometry decoded from payload `i`. Failure is atomic: the error
carries no partial registry. -/
theorem engine_new_spec (payloads : List Payload) :
    ((∃ m, Engine.new payloads = .error (.geometryError m)) ↔
      (payloads.length > i32MaxN ∨ ∃ p ∈ payloads, ∀ g, decodeOne p ≠ .ok g)) ∧
    ∀ e, Engine.new payloads = .ok e →
      e.polygons.length = payloads.length ∧
      ∀ i (h1 : i < payloads.length) (h2 : i < e.polygons.length),
        decodeOne (payloads.get ⟨i, h1⟩) = .ok (e.polygons.get ⟨i, h2⟩) := by
  by_cases hlen : payloads.length > i32MaxN
  · have hnew := engine_new_of_too_many payloads hlen
    refine ⟨⟨fun _ => Or.inl hlen, fun _ => ⟨_, hnew⟩⟩, ?_⟩
    intro e he
    rw [hnew] at he
    cases he
  · have hnew := engine_new_of_count_le payloads hlen
    cases hda : decodeAll payloads with
    | ok gs =>
      have hok : Engine.new payloads = .ok ⟨gs⟩ := by rw [hnew, hda]; rfl
      constructor
      · constructor
        · rintro ⟨m, hm⟩
          rw [hok] at hm
          cases hm
        · rintro (h | ⟨p, hp, hbad⟩)
          · exact absurd h hlen
          · obtain ⟨g, hg⟩ := (decodeAll_ok_iff payloads).mp ⟨gs, hda⟩ p hp
            exact absurd hg (hbad g)
      · intro e he
        rw [hok] at he
        cases he
        exact decodeAll_ok_spec payloads gs hda
    | error err =>
      obtain ⟨m, rfl⟩ := decodeAll_error_shape payloads err hda
      have herr : Engine.new payloads = .error (.geometryError m) := by
        rw [hnew, hda]; rfl
      constructor
      · constructor
        · intro _
          right
          by_contra hno
          push_neg at hno
          obtain ⟨gs, hgs⟩ := (decodeAll_ok_iff payloads).mpr hno
          rw [hgs] at hda
          cases hda
        · intro _
          exact ⟨m, herr⟩
      · intro e he
        rw [herr] at he
        cases he

/-- C4 witness: the theorem applied to the one-payload list whose payload is
malformed yields the construction error. -/
theorem engine_new_spec_witness :
    ∃ m, Engine.new [Payload.malformed] = .error (.geometryError m) :=
  (engine_new_spec [Payload.malformed]).1.mpr
    (Or.inr ⟨Payload.malformed, by simp, fun g hg => by
      have : decodeOne Payload.malformed =
          .error (.geometryError "Could not decode geojson") := rfl
      rw [this] at hg
      cases hg⟩)

/-- C9: a payload that decodes to a geometry collection whose size is not
exactly one — in particular the zero-geometry collection — aborts the whole
registry build with a `GeometryError`. -/
theorem engine_new_requires_single_geometry (payloads : List Payload)
    (gs : List Geometry) (hmem : Payload.decoded gs ∈ payloads)
    (hlen : gs.length ≠ 1) :
    ∃ m, Engine.new payloads = .error (.geometryError m) := by
  by_cases hc : payloads.length > i32MaxN
  · exact ⟨_, engine_new_of_too_many payloads hc⟩
  · have hnew := engine_new_of_count_le payloads hc
    cases hda : decodeAll payloads with
    | ok gs' =>
      exfalso
      obtain ⟨g, hg⟩ := (decodeAll_ok_iff payloads).mp ⟨gs', hda⟩ _ hmem
      match gs, hlen with
      | [g1], hlen => exact hlen rfl
      | [], _ =>
        have : decodeOne (.decoded []) = .error (.geometryError
            "Multiple polygons found in one geojson string, not supported") := rfl
        rw [this] at hg
        cases hg
      | g1 :: g2 :: rest, _ =>
        have : decodeOne (.decoded (g1 :: g2 :: rest)) = .error (.geometryError
            "Multiple polygons found in one geojson string, not supported") := rfl
        rw [this] at hg
        cases hg
    | error err =>
      obtain ⟨m, rfl⟩ := decodeAll_error_shape payloads err hda
      exact ⟨m, by rw [hnew, hda]; rfl⟩

/-- C9 witness: the theorem applied to the one-payload list whose payload
decodes to an empty feature collection. -/
theorem engine_new_requires_single_geometry_witness :
    Payload.decoded [] ∈ [Payload.decoded []] ∧ (([] : List Geometry).length ≠ 1) ∧
      ∃ m, Engine.new [Payload.decoded []] = .error (.geometryError m) :=
  ⟨by simp, by simp,
    engine_new_requires_single_geometry [Payload.decoded []] [] (by simp) (by simp)⟩

/-- C7 counterexample: the claim says a payload whose single decoded geometry
is a line fails the build; on the code it succeeds — `Engine::new` checks
only the geometry count, not its type, so the line is accepted and stored. -/
theorem line_payload_accepted_cx :
    Engine.new [Payload.decoded [Geometry.line
        [⟨.fin 0, .fin 0⟩, ⟨.fin 1, .fin 1⟩]]] =
      .ok ⟨[Geometry.line [⟨.fin 0, .fin 0⟩, ⟨.fin 1, .fin 1⟩]]⟩ := rfl

/-- C7 (amended): registry construction rejects multi-geometry (and
undecodable) payloads at load time, but does not inspect the geometry type:
a payload whose single decoded geometry is a line (or any other geometry) is
accepted and stored as-is. -/
theorem single_line_payload_accepted (g : Geometry) :
    Engine.new [Payload.decoded [g]] = .ok ⟨[g]⟩ := by
  have h1 : ¬([Payload.decoded [g]].length > i32MaxN) := by
    simp [i32MaxN]
  rw [engine_new_of_count_le _ h1]
  rfl

/-! ## The threaded batch query: reassembly -/

theorem scatter_foldl_length (sh : List (ℕ × ℤ)) (acc : List ℤ) :
    (sh.foldl (fun results q => results.set q.1 q.2) acc).length = acc.length := by
  induction sh generalizing acc with
  | nil => rfl
  | cons q sh ih => rw [List.foldl_cons, ih, List.length_set]

theorem scatter_foldl_get_of_not_mem (sh : List (ℕ × ℤ)) (acc : List ℤ) (i : ℕ)
    (h : ∀ r, (i, r) ∉ sh) :
    (sh.foldl (fun results q => results.set q.1 q.2) acc)[i]? = acc[i]? := by
  induction sh generalizing acc with
  | nil => rfl
  | cons q sh ih =>
    rw [List.foldl_cons, ih _ (fun r hr => h r (List.mem_cons_of_mem q hr))]
    apply List.getElem?_set_ne
    intro hqi
    exact h q.2 (hqi ▸ List.mem_cons_self q sh)

theorem scatter_foldl_get_of_mem (sh : List (ℕ × ℤ)) (acc : List ℤ) (i : ℕ) (r : ℤ)
    (hmem : (i, r) ∈ sh) (hnodup : (sh.map Prod.fst).Nodup) (hlen : i < acc.length) :
    (sh.foldl (fun results q => results.set q.1 q.2) acc)[i]? = some r := by
  induction sh generalizing acc with
  | nil => cases hmem
  | cons q sh ih =>
    rw [List.map_cons, List.nodup_cons] at hnodup
    rw [List.foldl_cons]
    rcases List.mem_cons.mp hmem with heq | hmem'
    · cases heq
      rw [scatter_foldl_get_of_not_mem sh _ i
        (fun r' hr' => hnodup.1 (List.mem_map.mpr ⟨(i, r'), hr', rfl⟩))]
      exact List.getElem?_set_eq_of_lt r hlen
    · exact ih (acc.set q.1 q.2) hmem' hnodup.2 (by rw [List.length_set]; exact hlen)

theorem enumFrom_map_snd {α β : Type} (f : α → β) (l : List α) (n : ℕ) :
    (List.enumFrom n l).map (fun q => (q.1, f q.2)) = List.enumFrom n (l.map f) := by
  induction l generalizing n with
  | nil => rfl
  | cons a l ih => simp [List.enumFrom, ih]

theorem enum_map_snd {α β : Type} (f : α → β) (l : List α) :
    l.enum.map (fun q => (q.1, f q.2)) = (l.map f).enum :=
  enumFrom_map_snd f l 0

theorem zipWith_eq_map_zip {α β γ : Type} (f : α → β → γ) (l1 : List α) (l2 : List β) :
    List.zipWith f l1 l2 = (List.zip l1 l2).map (fun q => f q.1 q.2) := by
  induction l1 generalizing l2 with
  | nil => cases l2 <;> rfl
  | cons a l1 ih =>
    cases l2 with
    | nil => rfl
    | cons b l2 => simp [ih]

theorem parResults_eq (e : Engine) (lat_array lon_array : List F64) :
    e.parResults lat_array lon_array =
      (List.zipWith (fun lat lon => e.pip_1 lat lon) lat_array lon_array).enum.filter
        (fun q => decide (0 ≤ q.2)) := by
  unfold Engine.parResults Engine.parInput
  rw [List.map_map]
  have h1 : ((fun q : ℕ × F64 × F64 => (q.1, e.pip_1 q.2.1 q.2.2)) ∘
      (fun q : ℕ × (F64 × F64) => (q.1, q.2.1, q.2.2))) =
        (fun q : ℕ × (F64 × F64) =>
          (q.1, (fun p : F64 × F64 => e.pip_1 p.1 p.2) q.2)) := rfl
  rw [h1, zipWith_eq_map_zip, ← enum_map_snd]

theorem pip_1_neg_one_or_nonneg (e : Engine) (hWF : e.WF) (lat lon : F64) :
    e.pip_1 lat lon = -1 ∨ 0 ≤ e.pip_1 lat lon := by
  cases hp : position (fun polygon => polygon.containsPt ⟨lon, lat⟩) e.polygons with
  | none =>
    left
    rw [pip_1_eq_position, hp]
  | some i =>
    right
    obtain ⟨hi, -⟩ := position_spec _ _ _ hp
    have key : e.pip_1 lat lon = i32ofNat i := by rw [pip_1_eq_position, hp]
    rw [key, i32ofNat_of_le i (by unfold Engine.WF at hWF; omega)]
    exact Int.ofNat_nonneg i

/-- Reassembly correctness: scattering any completion-order permutation of
the kept (index, result) pairs into a −1-prefilled buffer of the right
length reconstructs the full in-order result list, provided every result is
−1 or nonnegative. -/
theorem scatter_eq_target (t : List ℤ) (hval : ∀ x ∈ t, x = -1 ∨ 0 ≤ x)
    (sh : List (ℕ × ℤ))
    (hperm : sh.Perm (t.enum.filter (fun q => decide (0 ≤ q.2)))) :
    Engine.scatterResults t.length sh = t := by
  have hnodup : (sh.map Prod.fst).Nodup := by
    have h1 : ((t.enum.filter (fun q => decide (0 ≤ q.2))).map Prod.fst).Nodup :=
      (List.nodup_enum_map_fst t).sublist
        (List.Sublist.map Prod.fst (List.filter_sublist t.enum))
    exact ((hperm.map Prod.fst).nodup_iff).mpr h1
  apply List.ext_getElem?
  intro n
  by_cases hn : n < t.length
  · have hv : t[n]? = some (t.get ⟨n, hn⟩) := List.getElem?_eq_getElem hn
    set v := t.get ⟨n, hn⟩ with hvdef
    rcases hval v (List.getElem?_mem hv) with hneg | hpos
    · have hnm : ∀ r, (n, r) ∉ sh := by
        intro r hr
        have hmem2 := List.mem_filter.mp (hperm.mem_iff.mp hr)
        have hr2 : t[n]? = some r := List.mk_mem_enum_iff_getElem?.mp hmem2.1
        rw [hv] at hr2
        cases hr2
        have : (0 : ℤ) ≤ v := by simpa using hmem2.2
        omega
      unfold Engine.scatterResults
      rw [scatter_foldl_get_of_not_mem _ _ _ hnm, List.getElem?_replicate,
        if_pos hn, hv, hneg]
    · have hmem : (n, v) ∈ sh :=
        hperm.mem_iff.mpr (List.mem_filter.mpr
          ⟨List.mk_mem_enum_iff_getElem?.mpr hv, by simpa using hpos⟩)
      unfold Engine.scatterResults
      rw [scatter_foldl_get_of_mem _ _ _ _ hmem hnodup
        (by rw [List.length_replicate]; exact hn), hv]
  · unfold Engine.scatterResults
    rw [List.getElem?_eq_none (l := t) (by omega),
      List.getElem?_eq_none]
    rw [scatter_foldl_length, List.length_replicate]
    omega

/-- C1: for equal-length coordinate arrays, the threaded batch query equals
the sequential batch query, which is `pip_1` applied to each point in input
order; moreover the threaded reassembly yields this same output for any
completion-order permutation of the collected (index, result) pairs, so the
result is independent of worker scheduling (hence of the pool size). The
registry invariant `e.WF` (at most `i32::MAX` polygons, established by
`Engine::new`) is assumed. -/
theorem pip_n_threaded_refines_pip_n (e : Engine) (hWF : e.WF)
    (lat_array lon_array : List F64) (hlen : lat_array.length = lon_array.length)
    (shuffled : List (ℕ × ℤ))
    (hperm : shuffled.Perm (e.parResults lat_array lon_array)) :
    e.pip_n_threaded lat_array lon_array = e.pip_n lat_array lon_array ∧
      e.pip_n lat_array lon_array =
        .ok (List.zipWith (fun lat lon => e.pip_1 lat lon) lat_array lon_array) ∧
      Engine.scatterResults lat_array.length shuffled =
        List.zipWith (fun lat lon => e.pip_1 lat lon) lat_array lon_array := by
  set t := List.zipWith (fun lat lon => e.pip_1 lat lon) lat_array lon_array with ht
  have ht_len : t.length = lat_array.length := by
    rw [ht, List.length_zipWith]
    omega
  have hval : ∀ x ∈ t, x = -1 ∨ 0 ≤ x := by
    intro x hx
    rw [ht, zipWith_eq_map_zip] at hx
    obtain ⟨q, -, rfl⟩ := List.mem_map.mp hx
    exact pip_1_neg_one_or_nonneg e hWF q.1 q.2
  have hmain : ∀ sh : List (ℕ × ℤ), sh.Perm (e.parResults lat_array lon_array) →
      Engine.scatterResults lat_array.length sh = t := by
    intro sh hp
    rw [← ht_len]
    exact scatter_eq_target t hval sh (by rwa [parResults_eq, ← ht] at hp)
  have h2 : e.pip_n lat_array lon_array = .ok t := by
    unfold Engine.pip_n
    rw [if_neg (by omega)]
  have h3 : e.pip_n_threaded lat_array lon_array =
      .ok (Engine.scatterResults lat_array.length
        (e.parResults lat_array lon_array)) := by
    unfold Engine.pip_n_threaded
    rw [if_neg (by omega)]
  exact ⟨by rw [h3, h2, hmain _ (List.Perm.refl _)], h2, hmain shuffled hperm⟩

/-! ## Non-finite points never match (C8) -/

theorem isFinite_eq_fin (v : F64) (h : v.isFinite = true) : ∃ q, v = .fin q := by
  cases v with
  | fin q => exact ⟨q, rfl⟩
  | nan => simp [F64.isFinite] at h
  | inf => simp [F64.isFinite] at h
  | ninf => simp [F64.isFinite] at h

theorem flt_nan_left (z : F64) : F64.flt .nan z = false := by cases z <;> rfl

theorem flt_inf_left (z : F64) : F64.flt .inf z = false := by cases z <;> rfl

theorem edgeCrosses_y_nonfinite (px py : F64) (hy : py.isFinite = false)
    (vi vj : F64Point) (hiy : vi.y.isFinite = true) (hjy : vj.y.isFinite = true) :
    edgeCrosses ⟨px, py⟩ vi vj = false := by
  obtain ⟨ay, hay⟩ := isFinite_eq_fin _ hiy
  obtain ⟨by', hby⟩ := isFinite_eq_fin _ hjy
  cases py with
  | fin q => simp [F64.isFinite] at hy
  | nan => simp [edgeCrosses, hay, hby, F64.flt]
  | inf => simp [edgeCrosses, hay, hby, F64.flt]
  | ninf => simp [edgeCrosses, hay, hby, F64.flt]

theorem edgeCrosses_x_nan (py : F64) (vi vj : F64Point) :
    edgeCrosses ⟨.nan, py⟩ vi vj = false := by
  simp [edgeCrosses, flt_nan_left]

theorem edgeCrosses_x_inf (py : F64) (vi vj : F64Point) :
    edgeCrosses ⟨.inf, py⟩ vi vj = false := by
  simp [edgeCrosses, flt_inf_left]

theorem edgeCrosses_x_ninf (py : ℚ) (vi vj : F64Point)
    (hix : vi.x.isFinite = true) (hiy : vi.y.isFinite = true)
    (hjx : vj.x.isFinite = true) (hjy : vj.y.isFinite = true) :
    edgeCrosses ⟨.ninf, .fin py⟩ vi vj =
      (F64.flt (.fin py) vi.y != F64.flt (.fin py) vj.y) := by
  obtain ⟨ax, hax⟩ := isFinite_eq_fin _ hix
  obtain ⟨ay, hay⟩ := isFinite_eq_fin _ hiy
  obtain ⟨bx, hbx⟩ := isFinite_eq_fin _ hjx
  obtain ⟨by', hby⟩ := isFinite_eq_fin _ hjy
  by_cases hab : ay = by'
  · simp [edgeCrosses, hax, hay, hbx, hby, hab]
  · have hne : by' - ay ≠ 0 := sub_ne_zero_of_ne (Ne.symm hab)
    simp [edgeCrosses, hax, hay, hbx, hby, F64.sub, F64.mul, F64.div, F64.add,
      F64.flt, hne]

theorem countP_flips_edgesFrom (f : F64Point → Bool) (w a : F64Point)
    (l : List F64Point) :
    (edgesFrom w (a :: l)).countP (fun e => f e.1 != f e.2) % 2 =
      (if f a = f w then 0 else 1) := by
  induction l generalizing a with
  | nil =>
    have h1 : edgesFrom w [a] = [(a, w)] := rfl
    rw [h1]
    cases hfa : f a <;> cases hfw : f w <;>
      simp [List.countP_cons, hfa, hfw]
  | cons b l ih =>
    have h1 : edgesFrom w (a :: b :: l) = (a, b) :: edgesFrom w (b :: l) := rfl
    rw [h1, List.countP_cons]
    have h2 := ih b
    cases hfa : f a <;> cases hfb : f b <;> cases hfw : f w <;>
      simp [hfa, hfb, hfw] at h2 ⊢ <;> omega

theorem countP_flips_ringEdges (f : F64Point → Bool) (l : List F64Point) :
    (ringEdges l).countP (fun e => f e.1 != f e.2) % 2 = 0 := by
  cases l with
  | nil => rfl
  | cons v vs =>
    have h1 : ringEdges (v :: vs) = edgesFrom v (v :: vs) := rfl
    rw [h1, countP_flips_edgesFrom]
    simp

theorem mem_of_mem_edgesFrom (w : F64Point) (l : List F64Point) (u v : F64Point)
    (h : (u, v) ∈ edgesFrom w l) : u ∈ l ∧ (v ∈ l ∨ v = w) := by
  induction l with
  | nil => cases h
  | cons a t ih =>
    cases t with
    | nil =>
      have h1 : edgesFrom w [a] = [(a, w)] := rfl
      rw [h1] at h
      rcases List.mem_singleton.mp h with heq
      cases heq
      exact ⟨List.mem_singleton.mpr rfl, Or.inr rfl⟩
    | cons b rest =>
      have h1 : edgesFrom w (a :: b :: rest) = (a, b) :: edgesFrom w (b :: rest) := rfl
      rw [h1] at h
      rcases List.mem_cons.mp h with heq | hmem
      · cases heq
        exact ⟨List.mem_cons_self _ _, Or.inl (List.mem_cons_of_mem _ (List.mem_cons_self _ _))⟩
      · obtain ⟨hu, hv⟩ := ih hmem
        exact ⟨List.mem_cons_of_mem _ hu,
          hv.imp (fun hv' => List.mem_cons_of_mem _ hv') id⟩

theorem mem_of_mem_ringEdges (ring : List F64Point) (u v : F64Point)
    (h : (u, v) ∈ ringEdges ring) : u ∈ ring ∧ v ∈ ring := by
  cases ring with
  | nil => cases h
  | cons a t =>
    have h1 : ringEdges (a :: t) = edgesFrom a (a :: t) := rfl
    rw [h1] at h
    obtain ⟨hu, hv⟩ := mem_of_mem_edgesFrom a (a :: t) u v h
    refine ⟨hu, ?_⟩
    rcases hv with hv | rfl
    · exact hv
    · exact List.mem_cons_self _ _

theorem ring_contains_nonfinite (ring : List F64Point) (px py : F64)
    (hfin : ring.all (fun v => v.x.isFinite && v.y.isFinite) = true)
    (hp : px.isFinite = false ∨ py.isFinite = false) :
    ring_contains ring ⟨px, py⟩ = false := by
  have hfin' : ∀ v ∈ ring, v.x.isFinite = true ∧ v.y.isFinite = true := by
    intro v hv
    have h := List.all_eq_true.mp hfin v hv
    simpa using h
  suffices hcn : crossingNumber ring ⟨px, py⟩ % 2 = 0 by
    simp [ring_contains, hcn]
  by_cases hpy : py.isFinite = true
  · obtain ⟨qy, rfl⟩ := isFinite_eq_fin _ hpy
    have hpx : px.isFinite = false := by
      rcases hp with h | h
      · exact h
      · rw [hpy] at h; cases h
    cases px with
    | fin q => simp [F64.isFinite] at hpx
    | nan =>
      unfold crossingNumber
      rw [List.countP_eq_zero.mpr]
      intro e _
      simp [edgeCrosses_x_nan]
    | inf =>
      unfold crossingNumber
      rw [List.countP_eq_zero.mpr]
      intro e _
      simp [edgeCrosses_x_inf]
    | ninf =>
      unfold crossingNumber
      rw [List.countP_congr (q := fun e =>
        F64.flt (.fin qy) e.1.y != F64.flt (.fin qy) e.2.y)]
      · exact countP_flips_ringEdges (fun v => F64.flt (.fin qy) v.y) ring
      · intro e he
        obtain ⟨h1, h2⟩ := mem_of_mem_ringEdges ring e.1 e.2 he
        rw [edgeCrosses_x_ninf qy e.1 e.2 (hfin' e.1 h1).1 (hfin' e.1 h1).2
          (hfin' e.2 h2).1 (hfin' e.2 h2).2]
  · have hpy' : py.isFinite = false := by
      cases hx : py.isFinite
      · rfl
      · exact absurd hx hpy
    unfold crossingNumber
    rw [List.countP_eq_zero.mpr]
    intro e he
    obtain ⟨h1, h2⟩ := mem_of_mem_ringEdges ring e.1 e.2 he
    simp [edgeCrosses_y_nonfinite px py hpy' e.1 e.2 (hfin' e.1 h1).2 (hfin' e.2 h2).2]

/-- C8: `pip_1` is a total function (it never fails — its result type carries
no error case), and a malformed point with a non-finite latitude or longitude
deterministically matches no polygon of a registry whose ring vertices are
finite (the spec's Coordinate invariant): the result is the no-match
sentinel −1. -/
theorem pip_1_nonfinite_no_match (e : Engine) (lat lon : F64)
    (hfin : ∀ g ∈ e.polygons, g.allFiniteVerts = true)
    (hmal : lat.isFinite = false ∨ lon.isFinite = false) :
    e.pip_1 lat lon = -1 := by
  rw [pip_1_eq_position,
    (position_eq_none_iff _ e.polygons).mpr ?_]
  intro g hg
  cases g with
  | line coords => rfl
  | polygon poly =>
    have hfg := hfin _ hg
    have hext : poly.exterior.all (fun v => v.x.isFinite && v.y.isFinite) = true := by
      have h := hfg
      unfold Geometry.allFiniteVerts at h
      exact (Bool.and_eq_true _ _ ▸ h).1
    show polygon_contains poly ⟨lon, lat⟩ = false
    unfold polygon_contains
    rw [ring_contains_nonfinite poly.exterior lon lat hext
      (hmal.symm.imp id id)]
    rfl

/-- C8 witness: the theorem applied to the example registry and a point with
NaN latitude. -/
theorem pip_1_nonfinite_no_match_witness :
    (∀ g ∈ specEngine.polygons, g.allFiniteVerts = true) ∧
      (F64.nan.isFinite = false ∨ (F64.fin 1).isFinite = false) ∧
      specEngine.pip_1 .nan (.fin 1) = -1 :=
  ⟨by decide, by decide,
    pip_1_nonfinite_no_match specEngine .nan (.fin 1) (by decide) (by decide)⟩

/-! ## Polygon containment combines ring tests (C3) -/

/-- C3: polygon containment holds iff the point is inside the exterior ring
and inside none of the interior (hole) rings; consequently a point inside
the exterior ring but inside some hole is not contained, and querying a
registry holding only that polygon yields the no-match sentinel −1. -/
theorem polygon_contains_spec (poly : Polygon) (p : F64Point) :
    (polygon_contains poly p = true ↔
      (ring_contains poly.exterior p = true ∧
        ∀ hole ∈ poly.interiors, ring_contains hole p = false)) ∧
    ((ring_contains poly.exterior p = true) →
      (∃ hole ∈ poly.interiors, ring_contains hole p = true) →
      ∀ lat lon : F64, p = ⟨lon, lat⟩ →
        (Engine.mk [Geometry.polygon poly]).pip_1 lat lon = -1) := by
  constructor
  · unfold polygon_contains
    rw [Bool.and_eq_true, List.all_eq_true]
    constructor
    · rintro ⟨h1, h2⟩
      refine ⟨h1, fun hole hh => ?_⟩
      have := h2 hole hh
      simpa using this
    · rintro ⟨h1, h2⟩
      refine ⟨h1, fun hole hh => ?_⟩
      simp [h2 hole hh]
  · rintro hext ⟨hole, hh, hhole⟩ lat lon rfl
    have hfalse : polygon_contains poly ⟨lon, lat⟩ = false := by
      unfold polygon_contains
      rw [Bool.and_eq_false_iff]
      right
      rw [List.all_eq_false]
      exact ⟨hole, hh, by simp [hhole]⟩
    rw [pip_1_eq_position, (position_eq_none_iff _ _).mpr ?_]
    intro g hg
    rw [List.mem_singleton.mp hg]
    exact hfalse

/-! ## Evaluations of the spec's §8 example -/

theorem specSquare_ext_5_5 :
    ring_contains specSquare.exterior ⟨.fin 5, .fin 5⟩ = true := by
  simp [ring_contains, crossingNumber, ringEdges, edgesFrom, List.countP,
    List.countP.go, edgeCrosses, F64.flt, F64.add, F64.sub, F64.mul, F64.div,
    specSquare] <;> norm_num

theorem specSquare_hole_5_5 :
    ring_contains [⟨.fin 4, .fin 4⟩, ⟨.fin 4, .fin 7⟩, ⟨.fin 7, .fin 4⟩]
      ⟨.fin 5, .fin 5⟩ = true := by
  simp [ring_contains, crossingNumber, ringEdges, edgesFrom, List.countP,
    List.countP.go, edgeCrosses, F64.flt, F64.add, F64.sub, F64.mul, F64.div]
    <;> norm_num

/-- C3 witness: the theorem applied to the example square-with-hole polygon
at the point (5, 5), which is inside the exterior and inside the hole. -/
theorem polygon_contains_spec_witness :
    ring_contains specSquare.exterior ⟨.fin 5, .fin 5⟩ = true ∧
      (∃ hole ∈ specSquare.interiors,
        ring_contains hole ⟨.fin 5, .fin 5⟩ = true) ∧
      (Engine.mk [Geometry.polygon specSquare]).pip_1 (.fin 5) (.fin 5) = -1 :=
  ⟨specSquare_ext_5_5,
    ⟨[⟨.fin 4, .fin 4⟩, ⟨.fin 4, .fin 7⟩, ⟨.fin 7, .fin 4⟩], by
      simp [specSquare], specSquare_hole_5_5⟩,
    (polygon_contains_spec specSquare ⟨.fin 5, .fin 5⟩).2 specSquare_ext_5_5
      ⟨[⟨.fin 4, .fin 4⟩, ⟨.fin 4, .fin 7⟩, ⟨.fin 7, .fin 4⟩], by
        simp [specSquare], specSquare_hole_5_5⟩ (.fin 5) (.fin 5) rfl⟩

theorem specEngine_pip_1_1 : specEngine.pip_1 (.fin 1) (.fin 1) = 0 := by
  rw [pip_1_eq_position]
  have h : position (fun polygon => polygon.containsPt ⟨.fin 1, .fin 1⟩)
      specEngine.polygons = some 0 := by
    simp [specEngine, specSquare, position, Geometry.containsPt, polygon_contains,
      ring_contains, crossingNumber, ringEdges, edgesFrom, List.countP,
      List.countP.go, edgeCrosses, F64.flt, F64.add, F64.sub, F64.mul, F64.div]
      <;> norm_num
  rw [h]
  rfl

theorem specEngine_pip_5_5 : specEngine.pip_1 (.fin 5) (.fin 5) = -1 := by
  rw [pip_1_eq_position]
  have h : position (fun polygon => polygon.containsPt ⟨.fin 5, .fin 5⟩)
      specEngine.polygons = none := by
    simp [specEngine, specSquare, position, Geometry.containsPt, polygon_contains,
      ring_contains, crossingNumber, ringEdges, edgesFrom, List.countP,
      List.countP.go, edgeCrosses, F64.flt, F64.add, F64.sub, F64.mul, F64.div]
      <;> norm_num
  rw [h]

theorem specEngine_pip_20_20 : specEngine.pip_1 (.fin 20) (.fin 20) = -1 := by
  rw [pip_1_eq_position]
  have h : position (fun polygon => polygon.containsPt ⟨.fin 20, .fin 20⟩)
      specEngine.polygons = none := by
    simp [specEngine, specSquare, position, Geometry.containsPt, polygon_contains,
      ring_contains, crossingNumber, ringEdges, edgesFrom, List.countP,
      List.countP.go, edgeCrosses, F64.flt, F64.add, F64.sub, F64.mul, F64.div]
      <;> norm_num
  rw [h]

theorem specEngine_parResults_eval :
    specEngine.parResults [.fin 1, .fin 5, .fin 20] [.fin 1, .fin 5, .fin 20] =
      [((0 : ℕ), (0 : ℤ))] := by
  rw [parResults_eq]
  have hz : List.zipWith (fun lat lon => specEngine.pip_1 lat lon)
      [F64.fin 1, .fin 5, .fin 20] [F64.fin 1, .fin 5, .fin 20] = [0, -1, -1] := by
    simp [specEngine_pip_1_1, specEngine_pip_5_5, specEngine_pip_20_20]
  rw [hz]
  rfl

/-- C1 witness: the theorem applied to the example registry, the three spec
§8 query points and the concrete completion-order list [(0, 0)]. -/
theorem pip_n_threaded_refines_pip_n_witness :
    specEngine.WF ∧
      ([F64.fin 1, .fin 5, .fin 20].length = [F64.fin 1, .fin 5, .fin 20].length) ∧
      ([((0 : ℕ), (0 : ℤ))].Perm
        (specEngine.parResults [.fin 1, .fin 5, .fin 20] [.fin 1, .fin 5, .fin 20])) ∧
      (specEngine.pip_n_threaded [.fin 1, .fin 5, .fin 20] [.fin 1, .fin 5, .fin 20] =
          specEngine.pip_n [.fin 1, .fin 5, .fin 20] [.fin 1, .fin 5, .fin 20] ∧
        specEngine.pip_n [.fin 1, .fin 5, .fin 20] [.fin 1, .fin 5, .fin 20] =
          .ok (List.zipWith (fun lat lon => specEngine.pip_1 lat lon)
            [.fin 1, .fin 5, .fin 20] [.fin 1, .fin 5, .fin 20]) ∧
        Engine.scatterResults [F64.fin 1, .fin 5, .fin 20].length
            [((0 : ℕ), (0 : ℤ))] =
          List.zipWith (fun lat lon => specEngine.pip_1 lat lon)
            [.fin 1, .fin 5, .fin 20] [.fin 1, .fin 5, .fin 20]) := by
  have hperm : [((0 : ℕ), (0 : ℤ))].Perm
      (specEngine.parResults [.fin 1, .fin 5, .fin 20] [.fin 1, .fin 5, .fin 20]) := by
    rw [specEngine_parResults_eval]
  exact ⟨by decide, rfl, hperm,
    pip_n_threaded_refines_pip_n specEngine (by decide) _ _ rfl _ hperm⟩
